import Mathlib

/-!
Verification of the Google-Sheets-to-Markdown converter
(`scripts/convert-sheets-to-markdown.py`).

The development shallowly embeds the data path of the script:

* Python strings are `String` / `List Char`; the Python string primitives
  used by the script (`in`, `split`, `rstrip`, `strip`, `lower`, `upper`,
  `endswith`, `isalnum`, `replace`, `join`) are modelled by executable
  functions below.  Unicode-dependent primitives (`isalnum`, `lower`) are
  modelled faithfully on the Basic-Latin and Latin-1 ranges, which cover
  every comparison the script performs; code points above U+00FF are
  conservatively treated as non-alphanumeric.
* Python floats are modelled by `ℚ` (the progress arithmetic only adds,
  clamps and compares small numbers, so no rounding behaviour matters).
* Exceptions are modelled by `Option`/`Except`: a function that can raise
  an uncaught exception returns `none`.
* External collaborators (Sheets API, Gemini) are oracles passed in as
  `Except Unit _` values: `.error ()` models a raised exception, `.ok v`
  models a successful reply with payload `v`.
* The `ProgressBar` class is modelled as an explicit state machine with a
  coarse-grained interleaving semantics: every method call and every
  iteration of the background worker loop is atomic.  The randomized
  increments of the worker are parameters of the schedule.
-/

/-! ### Models of the Python string primitives -/

/-- Predicate `beginsWith p l`: `p` is an initial segment of `l`
(model of Python `str.startswith`, used to build `in` / `endswith`). -/
def beginsWith : List Char → List Char → Bool
  | [], _ => true
  | _ :: _, [] => false
  | p :: ps, c :: cs => p == c && beginsWith ps cs

/-- Predicate `occursIn p l`: `p` occurs contiguously inside `l`
(model of Python's substring test `p in l`). -/
def occursIn (p : List Char) : List Char → Bool
  | [] => p.isEmpty
  | c :: cs => beginsWith p (c :: cs) || occursIn p cs

/-- Model of Python `str.endswith`. -/
def pyEndsWith (suf l : List Char) : Bool :=
  beginsWith suf.reverse l.reverse

/-- Fuelled splitter: Python `str.split(sep)` for a non-empty separator,
splitting at every non-overlapping occurrence, left to right.  The fuel is
an upper bound on the number of characters consumed; `splitOnSep` always
supplies enough. -/
def splitOnSepFuel (sep : List Char) : Nat → List Char → List (List Char)
  | _, [] => [[]]
  | 0, l => [l]
  | fuel + 1, c :: cs =>
    if sep ≠ [] ∧ beginsWith sep (c :: cs) then
      [] :: splitOnSepFuel sep fuel ((c :: cs).drop sep.length)
    else
      match splitOnSepFuel sep fuel cs with
      | [] => [[c]]
      | p :: ps => (c :: p) :: ps

/-- Model of Python `str.split(sep)` (non-empty `sep`). -/
def splitOnSep (sep l : List Char) : List (List Char) :=
  splitOnSepFuel sep l.length l

/-- Model of Python `str.rstrip("]")`: remove all trailing `]`. -/
def rstripRBracket (l : List Char) : List Char :=
  (l.reverse.dropWhile (fun c => c == ']')).reverse

/-- Model of Python `str.isspace` on the characters `str.strip()` removes
(ASCII whitespace). -/
def pyIsSpaceChar (c : Char) : Bool :=
  c == ' ' || c == '\t' || c == '\n' || c == '\r' ||
  c == Char.ofNat 11 || c == Char.ofNat 12

/-- Model of Python `str.strip()` (no argument): drop leading and trailing
whitespace. -/
def stripChars (l : List Char) : List Char :=
  ((l.dropWhile pyIsSpaceChar).reverse.dropWhile pyIsSpaceChar).reverse

/-- Model of Python `str.strip()` on `String`. -/
def pyStrip (s : String) : String :=
  ⟨stripChars s.data⟩

/-- Model of Python `str.lower` on one character, faithful on Basic Latin
and Latin-1 (`A`–`Z` and `À`–`Þ` except `×` map down by 32; everything
else in scope is already caseless or lowercase). -/
def pyLowerChar (c : Char) : Char :=
  if 65 ≤ c.toNat ∧ c.toNat ≤ 90 then Char.ofNat (c.toNat + 32)
  else if 192 ≤ c.toNat ∧ c.toNat ≤ 222 ∧ c.toNat ≠ 215 then Char.ofNat (c.toNat + 32)
  else c

/-- Model of Python `str.lower()`. -/
def pyLower (s : String) : String :=
  ⟨s.data.map pyLowerChar⟩

/-- Model of Python `str.upper()`, faithful on ASCII (the script only
compares the result against the ASCII lexemes TRUE/FALSE/VERDADEIRO/FALSO). -/
def pyUpper (s : String) : String :=
  ⟨s.data.map Char.toUpper⟩

/-- Model of Python `str.isalnum` on one character, faithful on Basic
Latin and Latin-1 letters and ASCII digits: `0`–`9`, `A`–`Z`, `a`–`z`, and
the Latin-1 letters U+00C0–U+00FF except `×` (U+00D7) and `÷` (U+00F7).
Code points above U+00FF are out of the modelled scope and treated as
non-alphanumeric. -/
def pyIsAlnum (c : Char) : Bool :=
  (48 ≤ c.toNat ∧ c.toNat ≤ 57) || (65 ≤ c.toNat ∧ c.toNat ≤ 90) ||
  (97 ≤ c.toNat ∧ c.toNat ≤ 122) ||
  (192 ≤ c.toNat ∧ c.toNat ≤ 255 ∧ c.toNat ≠ 215 ∧ c.toNat ≠ 247)

/-- The filter used on generated file names:
`c.isalnum() or c in ["_", "."]` (line 462). -/
def goodChar (c : Char) : Bool :=
  pyIsAlnum c || c == '_' || c == '.'

/-- Model of Python `str.replace(" ", "_")` (single-character pattern, so
replacement is a character map). -/
def replaceSpace (s : String) : String :=
  ⟨s.data.map fun c => if c = ' ' then '_' else c⟩

/-- The backquote character U+0060 used as the inline-code delimiter. -/
def backquote : Char := Char.ofNat 96

/-! ### The cell pipeline (`get_sheet_data`, `mark_identifiers`) -/

/-- The cell string built by `get_sheet_data` (lines 206–223): the display
value, then `" [formula: …]"` when a formula is present (Python truthiness:
non-empty string), then `" [options: …]"` when dropdown options are present
(comma-joined in source order). -/
def cell_value (display formula : String) (options : List String) : String :=
  let v1 := if formula ≠ "" then display ++ " [formula: " ++ formula ++ "]" else display
  if options ≠ [] then v1 ++ " [options: " ++ String.intercalate ", " options ++ "]" else v1

/-- The boolean lexeme list of `mark_identifiers` (line 502). -/
def boolLexemes : List String := ["TRUE", "FALSE", "VERDADEIRO", "FALSO"]

/-- The third rule of `mark_identifiers` (lines 502–504): if the current
cell string, upper-cased, is one of the boolean lexemes, replace it with a
checkbox token. -/
def boolStep (cell : String) : String :=
  if pyUpper cell ∈ boolLexemes then
    if pyUpper cell ∈ ["TRUE", "VERDADEIRO"] then "- [x]" else "- [ ]"
  else cell

/-- The separator `mark_identifiers` splits on (line 497). -/
def optionsSep : List Char := " [options: ".data

/-- The per-cell body of `mark_identifiers` (lines 492–506).  `none`
models the uncaught `IndexError` raised by `parts[1]` when the cell
contains `"[options:"` but not the exact separator `" [options: "`. -/
def mark_cell (cell0 : String) : Option String :=
  let cell1 := if occursIn "[formula:".data cell0.data then "`" ++ cell0 ++ "`" else cell0
  if occursIn "[options:".data cell1.data then
    match splitOnSep optionsSep cell1.data with
    | v :: o :: _ =>
      some (boolStep ⟨v ++ " <select>".data ++ rstripRBracket o ++ "</select>".data⟩)
    | _ => none
  else
    some (boolStep cell1)

/-- One row of `mark_identifiers` (inner loop, lines 491–506); an
exception in any cell aborts the whole call. -/
def mark_row : List String → Option (List String)
  | [] => some []
  | c :: cs =>
    match mark_cell c, mark_row cs with
    | some c2, some cs2 => some (c2 :: cs2)
    | _, _ => none

/-- Model of `mark_identifiers` (lines 475–508). -/
def mark_identifiers : List (List String) → Option (List (List String))
  | [] => some []
  | r :: rs =>
    match mark_row r, mark_identifiers rs with
    | some r2, some rs2 => some (r2 :: rs2)
    | _, _ => none

/-! ### The remaining pipeline functions -/

/-- Model of `get_sheet_data` (lines 170–233), data path.  The fetch oracle is the
API reply: `.error ()` models any exception in the `try` block (caught,
logged, `None` returned); `.ok rows` models a grid whose rows are `none`
when they lack a `"values"` entry (skipped by `continue`) and otherwise a
list of `(display, formula, options)` cells. -/
def get_sheet_data
    (fetch : Except Unit (List (Option (List (String × String × List String))))) :
    Option (List (List String)) :=
  match fetch with
  | .error _ => none
  | .ok rows =>
    some ((rows.filterMap id).map fun row => row.map fun c => cell_value c.1 c.2.1 c.2.2)

/-- Model of `format_with_gemini` (lines 236–334), data path: any exception is
caught and `None` returned; otherwise `response.text` is returned as-is
(including when it is empty). -/
def format_with_gemini (resp : Except Unit String) : Option String :=
  match resp with
  | .error _ => none
  | .ok t => some t

/-- Model of `generate_file_name_with_ai` (lines 413–472), data path: on any
exception the fixed fallback `"output.md"` is returned; otherwise
`response.text` is stripped, lower-cased, suffixed with `".md"` when
missing, and filtered to alphanumerics, `_` and `.`. -/
def generate_file_name_with_ai (resp : Except Unit String) : String :=
  match resp with
  | .error _ => "output.md"
  | .ok t =>
    let name := pyLower (pyStrip t)
    let name := if pyEndsWith ".md".data name.data then name else name ++ ".md"
    ⟨name.data.filter goodChar⟩

/-- The file name actually used by `main` (lines 551–552):
`file_name.strip().replace(" ", "_")` applied to the generated name. -/
def outputFileName (resp : Except Unit String) : String :=
  replaceSpace (pyStrip (generate_file_name_with_ai resp))

/-- Observable outcome of one run of `main` (lines 511–560):
whether the "No data was retrieved" message was printed, which file was
written with which content (`none`: no write at all; the content is `""`
when `open` truncated the file but `f.write` raised), and whether the
top-level `except` handler fired (the process still exits normally). -/
structure RunResult where
  printed_no_data : Bool
  file_write : Option (String × String)
  top_error : Bool
deriving DecidableEq, Repr

/-- The orchestration of `main` (lines 541–560) after authentication and
metadata loading, as a function of the three external oracles.  When
`format_with_gemini` returns `None`, `open(...)` still creates/truncates
the output file and `f.write(None)` raises `TypeError`, caught by the
top-level handler: the file is left empty and the error is logged. -/
def main_pipeline
    (fetch : Except Unit (List (Option (List (String × String × List String)))))
    (gemini naming : Except Unit String) : RunResult :=
  match get_sheet_data fetch with
  | none => ⟨true, none, false⟩
  | some [] => ⟨true, none, false⟩
  | some (r :: rs) =>
    match mark_identifiers (r :: rs) with
    | none => ⟨false, none, true⟩
    | some _ =>
      let fmt := format_with_gemini gemini
      let fname := outputFileName naming
      match fmt with
      | none => ⟨false, some (fname, ""), true⟩
      | some text => ⟨false, some (fname, text), false⟩

/-! ### The `ProgressBar` class (lines 50–144)

Modelled as an explicit state machine.  Console writes are recorded as an
event trace (`OutEvent`); the redrawn bar line is one `bar` event carrying
the percentage (the trailing newline written at 100 is folded into it).
Each method call, and each iteration of the background worker loop, is one
atomic step; the worker's randomized sleep lengths only affect scheduling
and its randomized increments are explicit parameters.  A `join` blocks
until the worker loop exits, so it is modelled by running the remaining
worker iterations (with per-iteration increments `ds`); if `ds` runs out
early the thread is removed anyway, which only ever shortens the worker's
write trace. -/

namespace ProgressBar

/-- One console emission: a step header line or a redrawn progress bar. -/
inductive OutEvent where
  | header (step : String)
  | bar (value : ℚ)
deriving DecidableEq, Repr

/-- The background worker of `simulate_progress` (lines 128–139): its
step label, its local `current_progress`, and its `until` bound. -/
structure Worker where
  step : String
  current : ℚ
  bound : ℚ
deriving DecidableEq, Repr

/-- The mutable state of a `ProgressBar` instance (lines 67–80), plus the
console trace.  `threads` holds the live simulation threads (the source
keeps a single `_current_thread` reference; a list is used so that "at
most one live thread" is a provable invariant rather than a modelling
assumption). -/
structure PBState where
  current_step : String
  progress : ℚ
  stop_fake : Bool
  is_running_fake : Bool
  threads : List Worker
  step_printed : Bool
  output : List OutEvent
deriving DecidableEq, Repr

/-- Model of the constructor (lines 67–80). -/
def initState : PBState :=
  { current_step := "", progress := 0, stop_fake := false, is_running_fake := false
    threads := [], step_printed := false, output := [] }

/-- The clamp of `update` (line 99): `min(100, max(0, progress))`. -/
def clamp (q : ℚ) : ℚ := min 100 (max 0 q)

/-- The `progress is not None` tail of `update` (lines 98–109): clamp,
redraw the bar, and on reaching exactly 100 set the stop flag. -/
def setPercent (q : ℚ) (s : PBState) : PBState :=
  let prog := clamp q
  let s1 := { s with progress := prog, output := s.output ++ [OutEvent.bar prog] }
  if prog = 100 then { s1 with stop_fake := true } else s1

/-- The `step != self.current_step` branch of `update` (lines 90–96):
force-complete the previous step when it is non-empty and below 100, then
print the new header and reset the percentage.  The recursive call
`self.update(self.current_step, 100)` lands in the same-step case, i.e. it
is exactly `setPercent 100`. -/
def changeStep (step : String) (s : PBState) : PBState :=
  let s1 := if s.current_step ≠ "" ∧ s.progress < 100 then setPercent 100 s else s
  { s1 with output := s1.output ++ [OutEvent.header step], current_step := step
            progress := 0, step_printed := true }

/-- Model of `update` (lines 82–109). -/
def update (step : String) (percent : Option ℚ) (s : PBState) : PBState :=
  let s1 := if step = s.current_step then s else changeStep step s
  match percent with
  | none => s1
  | some q => setPercent q s1

/-- One atomic iteration of `fake_progress_worker` (lines 128–135) with
increment `δ`: re-check the loop condition; if it fails the loop exits
(`_is_running_fake = False`, thread no longer alive), otherwise advance
the local counter and route it through `update`. -/
def tickWith (δ : ℚ) (s : PBState) : PBState :=
  match s.threads with
  | [] => s
  | w :: rest =>
    if s.stop_fake ∨ ¬ w.current < w.bound then
      { s with threads := rest, is_running_fake := false }
    else
      let c := w.current + δ
      let s1 := update w.step (some c) s
      { s1 with threads := { w with current := c } :: rest }

/-- Run the live worker to loop exit (the effect of `join()`), feeding it
the increments `ds`; the thread is dead afterwards. -/
def runWorker : List ℚ → PBState → PBState
  | [], s =>
    match s.threads with
    | [] => s
    | _ :: rest => { s with threads := rest, is_running_fake := false }
  | δ :: ds, s =>
    match s.threads with
    | [] => s
    | w :: rest =>
      if s.stop_fake ∨ ¬ w.current < w.bound then
        { s with threads := rest, is_running_fake := false }
      else
        runWorker ds (tickWith δ s)

/-- Model of `simulate_progress` (lines 111–139): if a prior simulation thread is
alive, set the stop flag and join it; then clear the flag, mark the
simulation running, report `start_from` through `update`, and start the
new worker.  `ds` are the increments the old worker still performs while
being joined (none, since the stop flag is already set). -/
def simulate_progress (step : String) (start_from bound : ℚ) (ds : List ℚ)
    (s : PBState) : PBState :=
  let s1 := if s.threads = [] then s else runWorker ds { s with stop_fake := true }
  let s2 := { s1 with stop_fake := false, is_running_fake := true }
  let s3 := update step (some start_from) s2
  { s3 with threads := s3.threads ++ [{ step := step, current := start_from, bound := bound }] }

/-- Model of `wait_for_fake_progress` (lines 141–144): join the live thread if any,
letting it run to loop exit with increments `ds`. -/
def wait_for_fake_progress (ds : List ℚ) (s : PBState) : PBState :=
  if s.threads = [] then s else runWorker ds s

/-- One foreground call or one worker iteration, as scheduled history. -/
inductive PBOp where
  | update (step : String) (percent : Option ℚ)
  | simulate (step : String) (start_from bound : ℚ) (joinIncs : List ℚ)
  | tick (δ : ℚ)
  | wait (joinIncs : List ℚ)
deriving Repr

/-- Apply one scheduled operation. -/
def runOp (s : PBState) : PBOp → PBState
  | .update step p => update step p s
  | .simulate step sf b ds => simulate_progress step sf b ds s
  | .tick δ => tickWith δ s
  | .wait ds => wait_for_fake_progress ds s

/-- Run a schedule from the freshly constructed reporter. -/
def run (ops : List PBOp) : PBState :=
  ops.foldl runOp initState

/-- The sequence of values `fake_progress_worker` (lines 128–135) passes
to `update`, as a function of its start value, its `until` bound and the
randomized increments; a stop request truncates this list. -/
def workerValues (current bound : ℚ) : List ℚ → List ℚ
  | [] => []
  | δ :: ds =>
    if current < bound then (current + δ) :: workerValues (current + δ) bound ds else []

/-- The `(start_from, until)` arguments of every `simulate_progress` call
site in the script: line 161 and line 187 use the defaults `(0, 80)`,
line 252 uses `(10, 90)`, line 430 uses `(0, 90)`. -/
def simulateCallSites : List (ℚ × ℚ) := [(0, 80), (0, 80), (10, 90), (0, 90)]

end ProgressBar

/-! ### Helper lemmas about the string primitives -/

theorem beginsWith_iff : ∀ p l : List Char, beginsWith p l = true ↔ ∃ t, l = p ++ t
  | [], l => by simp [beginsWith]
  | c :: p, [] => by simp [beginsWith]
  | c :: p, x :: l => by
    simp only [beginsWith, Bool.and_eq_true, beq_iff_eq, beginsWith_iff p l,
      List.cons_append, List.cons.injEq]
    constructor
    · rintro ⟨rfl, t, rfl⟩; exact ⟨t, rfl, rfl⟩
    · rintro ⟨t, rfl, rfl⟩; exact ⟨rfl, t, rfl⟩

theorem occursIn_iff : ∀ p l : List Char, occursIn p l = true ↔ ∃ s t, l = s ++ p ++ t
  | p, [] => by
    simp only [occursIn, List.isEmpty_iff]
    constructor
    · rintro rfl; exact ⟨[], [], rfl⟩
    · rintro ⟨s, t, h⟩
      rcases List.append_eq_nil.mp h.symm with ⟨h1, h2⟩
      exact (List.append_eq_nil.mp h1).2
  | p, c :: l => by
    simp only [occursIn, Bool.or_eq_true, beginsWith_iff, occursIn_iff p l]
    constructor
    · rintro (⟨t, ht⟩ | ⟨s, t, rfl⟩)
      · exact ⟨[], t, by simpa using ht⟩
      · exact ⟨c :: s, t, by simp⟩
    · rintro ⟨s, t, h⟩
      cases s with
      | nil => exact Or.inl ⟨t, by simpa using h⟩
      | cons c' s' =>
        rcases List.cons.injEq .. ▸ h with ⟨rfl, h2⟩
        exact Or.inr ⟨s', t, by simpa using h2⟩

theorem occursIn_map (f : Char → Char) (p l : List Char) (h : occursIn p l = true) :
    occursIn (p.map f) (l.map f) = true := by
  rcases (occursIn_iff p l).mp h with ⟨s, t, rfl⟩
  exact (occursIn_iff _ _).mpr ⟨s.map f, t.map f, by simp⟩

/-- Removing a first character not occurring in the (non-empty) pattern
cannot destroy an occurrence. -/
theorem occursIn_of_cons (p l : List Char) (x : Char) (hx : x ∉ p) (hp : p ≠ [])
    (h : occursIn p (x :: l) = true) : occursIn p l = true := by
  rcases p with _ | ⟨q, ps⟩
  · exact absurd rfl hp
  · simp only [occursIn, Bool.or_eq_true] at h
    rcases h with h | h
    · simp only [beginsWith, Bool.and_eq_true, beq_iff_eq] at h
      exact absurd (h.1 ▸ List.mem_cons_self q ps) hx
    · exact h

theorem beginsWith_of_concat (p : List Char) (x : Char) (hx : x ∉ p) :
    ∀ l, beginsWith p (l ++ [x]) = true → beginsWith p l = true := by
  induction p with
  | nil => intro l _; rfl
  | cons q ps ih =>
    intro l h
    cases l with
    | nil =>
      simp only [List.nil_append, beginsWith, Bool.and_eq_true, beq_iff_eq] at h
      exact absurd (h.1 ▸ List.mem_cons_self q ps) hx
    | cons c cs =>
      simp only [List.cons_append, beginsWith, Bool.and_eq_true, beq_iff_eq] at h ⊢
      exact ⟨h.1, ih (fun hm => hx (List.mem_cons_of_mem q hm)) cs h.2⟩

/-- Removing a last character not occurring in the (non-empty) pattern
cannot destroy an occurrence. -/
theorem occursIn_of_concat (p : List Char) (x : Char) (hx : x ∉ p) (hp : p ≠ []) :
    ∀ l, occursIn p (l ++ [x]) = true → occursIn p l = true := by
  intro l
  induction l with
  | nil =>
    intro h
    simp only [List.nil_append, occursIn, Bool.or_eq_true] at h
    rcases h with h | h
    · rcases (beginsWith_iff p [x]).mp h with ⟨t, ht⟩
      rcases p with _ | ⟨q, ps⟩
      · exact absurd rfl hp
      · have hq : x = q ∧ ([] : List Char) = ps ++ t := by simpa using ht
        exact absurd (by rw [hq.1]; exact List.mem_cons_self q ps) hx
    · simp only [occursIn, List.isEmpty_iff] at h
      exact absurd h hp
  | cons c cs ih =>
    intro h
    simp only [List.cons_append, occursIn, Bool.or_eq_true] at h ⊢
    rcases h with h | h
    · exact Or.inl (beginsWith_of_concat p x hx (c :: cs) h)
    · exact Or.inr (ih h)

theorem pyEndsWith_iff (suf l : List Char) :
    pyEndsWith suf l = true ↔ ∃ pre, l = pre ++ suf := by
  simp only [pyEndsWith, beginsWith_iff]
  constructor
  · rintro ⟨t, ht⟩
    refine ⟨t.reverse, ?_⟩
    have := congrArg List.reverse ht
    simpa using this
  · rintro ⟨pre, rfl⟩
    exact ⟨pre.reverse, by simp⟩

theorem dropWhile_eq_self_of (p : Char → Bool) (l : List Char)
    (h : ∀ c ∈ l, p c = false) : l.dropWhile p = l := by
  cases l with
  | nil => rfl
  | cons c cs => simp [List.dropWhile_cons, h c (List.mem_cons_self c cs)]

theorem stripChars_eq_self (l : List Char) (h : ∀ c ∈ l, pyIsSpaceChar c = false) :
    stripChars l = l := by
  unfold stripChars
  rw [dropWhile_eq_self_of _ l h,
    dropWhile_eq_self_of _ l.reverse (fun c hc => h c (List.mem_reverse.mp hc)),
    List.reverse_reverse]

theorem mem_of_mem_dropWhile (p : Char → Bool) :
    ∀ l : List Char, ∀ c ∈ l.dropWhile p, c ∈ l := by
  intro l
  induction l with
  | nil => simp
  | cons x xs ih =>
    intro c hc
    rw [List.dropWhile_cons] at hc
    by_cases hp : p x
    · simp only [hp, if_true] at hc
      exact List.mem_cons_of_mem x (ih c hc)
    · simp only [hp, if_false] at hc
      exact hc

theorem mem_of_mem_stripChars (l : List Char) (c : Char) (h : c ∈ stripChars l) :
    c ∈ l := by
  unfold stripChars at h
  rw [List.mem_reverse] at h
  have h2 := mem_of_mem_dropWhile _ _ c h
  rw [List.mem_reverse] at h2
  exact mem_of_mem_dropWhile _ _ c h2

theorem map_eq_self_of (f : Char → Char) (l : List Char) (h : ∀ c ∈ l, f c = c) :
    l.map f = l := by
  induction l with
  | nil => rfl
  | cons a as ih =>
    simp only [List.map_cons, h a (List.mem_cons_self a as), List.cons.injEq, true_and]
    exact ih fun c hc => h c (List.mem_cons_of_mem a hc)

theorem data_append (a b : String) : (a ++ b).data = a.data ++ b.data := rfl

theorem mk_data (s : String) : (⟨s.data⟩ : String) = s := rfl

/-! ### Helper lemmas about the `ProgressBar` state machine -/

namespace ProgressBar

theorem clamp_100 : clamp 100 = 100 := by norm_num [clamp]

theorem setPercent_threads (q : ℚ) (s : PBState) :
    (setPercent q s).threads = s.threads := by
  simp only [setPercent]
  split <;> rfl

theorem changeStep_threads (st : String) (s : PBState) :
    (changeStep st s).threads = s.threads := by
  simp only [changeStep]
  split
  · exact setPercent_threads 100 s
  · rfl

theorem update_threads (st : String) (p : Option ℚ) (s : PBState) :
    (update st p s).threads = s.threads := by
  cases p with
  | none =>
    simp only [update]
    split
    · rfl
    · exact changeStep_threads st s
  | some q =>
    simp only [update]
    split
    · exact setPercent_threads q s
    · rw [setPercent_threads]
      exact changeStep_threads st s

theorem setPercent_100_spec (s : PBState) :
    (setPercent 100 s).progress = 100 ∧ (setPercent 100 s).stop_fake = true ∧
    (setPercent 100 s).current_step = s.current_step := by
  simp only [setPercent, clamp_100]
  simp

/-- After `update step (some 100)` the progress is exactly 100, the stop
flag is set, and the current step is `step`, whatever the prior state. -/
theorem update_some100 (st : String) (s : PBState) :
    (update st (some 100) s).progress = 100 ∧ (update st (some 100) s).stop_fake = true ∧
    (update st (some 100) s).current_step = st := by
  simp only [update]
  split
  · next h =>
    obtain ⟨h1, h2, h3⟩ := setPercent_100_spec s
    exact ⟨h1, h2, h3.trans h.symm⟩
  · next h =>
    obtain ⟨h1, h2, h3⟩ := setPercent_100_spec (changeStep st s)
    refine ⟨h1, h2, h3.trans ?_⟩
    simp only [changeStep]

theorem tickWith_threads_le (δ : ℚ) (s : PBState) :
    (tickWith δ s).threads.length ≤ s.threads.length := by
  cases hth : s.threads with
  | nil => simp [tickWith, hth]
  | cons w rest =>
    simp only [tickWith, hth]
    split
    · simp
    · simp [update_threads, hth]

theorem runWorker_threads_le (ds : List ℚ) (s : PBState) :
    (runWorker ds s).threads.length ≤ s.threads.length := by
  induction ds generalizing s with
  | nil =>
    cases hth : s.threads with
    | nil => simp [runWorker, hth]
    | cons w rest => simp [runWorker, hth]
  | cons δ ds ih =>
    cases hth : s.threads with
    | nil => simp [runWorker, hth]
    | cons w rest =>
      simp only [runWorker, hth]
      split
      · simp
      · rw [← hth]
        exact le_trans (ih _) (tickWith_threads_le δ s)

/-- With the stop flag set, joining the worker performs no write: the
thread is removed and everything else is untouched. -/
theorem runWorker_stop (ds : List ℚ) (s : PBState) (h : s.stop_fake = true) :
    (runWorker ds s).threads = s.threads.tail ∧
    (runWorker ds s).progress = s.progress ∧
    (runWorker ds s).current_step = s.current_step ∧
    (runWorker ds s).output = s.output := by
  cases ds with
  | nil =>
    cases hth : s.threads with
    | nil => simp [runWorker, hth]
    | cons w rest => simp [runWorker, hth]
  | cons δ ds =>
    cases hth : s.threads with
    | nil => simp [runWorker, hth]
    | cons w rest =>
      simp only [runWorker, hth]
      rw [if_pos (Or.inl h)]
      simp

theorem tail_eq_nil_of_length_le_one {α : Type} (l : List α) (h : l.length ≤ 1) :
    l.tail = [] := by
  cases l with
  | nil => rfl
  | cons a t =>
    simp only [List.length_cons] at h
    have ht : t.length = 0 := by omega
    exact List.length_eq_zero.mp ht

theorem simulate_progress_threads (st : String) (sf b : ℚ) (ds : List ℚ) (s : PBState) :
    (simulate_progress st sf b ds s).threads =
      (if s.threads = [] then s else runWorker ds { s with stop_fake := true }).threads ++
        [{ step := st, current := sf, bound := b }] := by
  simp only [simulate_progress]
  rw [update_threads]

theorem simulate_threads_le (st : String) (sf b : ℚ) (ds : List ℚ) (s : PBState)
    (h : s.threads.length ≤ 1) :
    (simulate_progress st sf b ds s).threads.length ≤ 1 := by
  rw [simulate_progress_threads]
  split
  · next hnil => simp [hnil]
  · next hnn =>
    obtain ⟨ht, _, _, _⟩ := runWorker_stop ds { s with stop_fake := true } rfl
    rw [ht]
    have htail : s.threads.tail = [] := tail_eq_nil_of_length_le_one s.threads h
    simp [htail]

theorem wait_threads_le (ds : List ℚ) (s : PBState) (h : s.threads.length ≤ 1) :
    (wait_for_fake_progress ds s).threads.length ≤ 1 := by
  simp only [wait_for_fake_progress]
  split
  · exact h
  · exact le_trans (runWorker_threads_le ds s) h

theorem runOp_threads_le (s : PBState) (op : PBOp) (h : s.threads.length ≤ 1) :
    (runOp s op).threads.length ≤ 1 := by
  cases op with
  | update st p => rw [runOp, update_threads]; exact h
  | simulate st sf b ds => exact simulate_threads_le st sf b ds s h
  | tick δ => exact le_trans (tickWith_threads_le δ s) h
  | wait ds => exact wait_threads_le ds s h

theorem foldl_threads_le (ops : List PBOp) :
    ∀ s : PBState, s.threads.length ≤ 1 → (ops.foldl runOp s).threads.length ≤ 1 := by
  induction ops with
  | nil => intro s h; exact h
  | cons op ops ih =>
    intro s h
    exact ih (runOp s op) (runOp_threads_le s op h)

theorem run_threads_le (ops : List PBOp) : (run ops).threads.length ≤ 1 :=
  foldl_threads_le ops initState (by simp [initState])

/-- Every value the worker loop can pass to `update` is below 100 as soon
as the `until` bound is at most 90 and every increment is at most 2 (the
worker only advances from a value strictly below the bound). -/
theorem workerValues_lt (b : ℚ) (hb : b ≤ 90) :
    ∀ (ds : List ℚ), (∀ δ ∈ ds, δ ≤ 2) → ∀ (c : ℚ), ∀ v ∈ workerValues c b ds, v < 100 := by
  intro ds
  induction ds with
  | nil => intro _ c v hv; simp [workerValues] at hv
  | cons δ ds ih =>
    intro hds c v hv
    rw [workerValues] at hv
    split at hv
    · next hc =>
      rcases List.mem_cons.mp hv with rfl | hv
      · have hδ : δ ≤ 2 := hds δ (List.mem_cons_self δ ds)
        calc c + δ < b + 2 := by linarith
          _ ≤ 92 := by linarith
          _ < 100 := by norm_num
      · exact ih (fun d hd => hds d (List.mem_cons_of_mem δ hd)) (c + δ) v hv
    · simp at hv

end ProgressBar

/-! ### Helper lemmas about the converter functions -/

theorem toNat_ofNat_small (n : Nat) (h : n < 55296) : (Char.ofNat n).toNat = n := by
  simp [Char.ofNat, Nat.isValidChar, h, Char.ofNatAux, Char.toNat, UInt32.toNat,
    BitVec.toNat_ofNatLt]

theorem cell_value_plain (d : String) : cell_value d "" [] = d := by
  simp [cell_value]

theorem cell_value_formula (d f : String) (hf : f ≠ "") :
    cell_value d f [] = d ++ " [formula: " ++ f ++ "]" := by
  simp [cell_value, hf]

/-- An occurrence of an upper-cased pattern is impossible in a string
whose upper-casing is one of the four boolean lexemes, whenever the
pattern does not occur upper-cased in any lexeme. -/
theorem no_occurrence_of_lexeme (d : String) (pat : List Char)
    (h : pyUpper d ∈ boolLexemes)
    (hlex : ∀ w ∈ boolLexemes, occursIn (pat.map Char.toUpper) w.data = false) :
    occursIn pat d.data = false := by
  by_contra hc
  rw [Bool.not_eq_false] at hc
  have h2 : occursIn (pat.map Char.toUpper) (pyUpper d).data = true :=
    occursIn_map Char.toUpper pat d.data hc
  have h3 := hlex (pyUpper d) h
  rw [h3] at h2
  exact Bool.noConfusion h2

/-! ### Claim C1 -/

/-- Claim C1, counterexample: a cell whose base display value is `TRUE`
(case-insensitively in the boolean lexeme set) but which also carries a
formula marker is NOT replaced by a checkbox token: the boolean comparison
runs on the decorated string `TRUE [formula: =A1]` (already wrapped in
backquotes), which is not a lexeme, so the output keeps the formula
decoration. -/
theorem c1_cex :
    pyUpper "TRUE" ∈ boolLexemes ∧
    mark_cell (cell_value "TRUE" "=A1" []) = some "`TRUE [formula: =A1]`" ∧
    mark_cell (cell_value "TRUE" "=A1" []) ≠ some "- [x]" ∧
    mark_cell (cell_value "TRUE" "=A1" []) ≠ some "- [ ]" := by decide

/-- Claim C1 (amended): the checkbox replacement applies exactly to cells
whose entire content is, case-insensitively, one of the boolean lexemes —
in particular to every marker-free cell whose display value is a lexeme;
a cell that also carries a formula or dropdown-options marker fails the
lexeme comparison and is not replaced. -/
theorem c1_amended (d : String) (h : pyUpper d ∈ boolLexemes) :
    mark_cell (cell_value d "" []) =
      some (if pyUpper d ∈ ["TRUE", "VERDADEIRO"] then "- [x]" else "- [ ]") := by
  rw [cell_value_plain]
  have hf : occursIn "[formula:".data d.data = false := by
    refine no_occurrence_of_lexeme d _ h ?_
    decide
  have ho : occursIn "[options:".data d.data = false := by
    refine no_occurrence_of_lexeme d _ h ?_
    decide
  simp only [mark_cell, hf, Bool.false_eq_true, if_false, ho, boolStep, if_pos h]

/-- Witness for `c1_amended` at the concrete lexeme `verdadeiro`. -/
theorem c1_amended_witness :
    mark_cell (cell_value "verdadeiro" "" []) =
      some (if pyUpper "verdadeiro" ∈ ["TRUE", "VERDADEIRO"] then "- [x]" else "- [ ]") :=
  c1_amended "verdadeiro" (by decide)

/-! ### Claim C9 -/

/-- Claim C9, counterexample: a cell that carries a formula marker AND a
dropdown-options marker is first wrapped in backquotes, but the options
rewrite then appends `</select>` after the closing backquote, so the
annotated output does not end with the inline-code delimiter. -/
theorem c9_cex :
    occursIn "[formula:".data (cell_value "v" "=f" ["a", "b"]).data = true ∧
    mark_cell (cell_value "v" "=f" ["a", "b"]) =
      some "`v [formula: =f] <select>a, b]`</select>" ∧
    ("`v [formula: =f] <select>a, b]`</select>" : String).data.getLast? ≠ some backquote := by
  decide

theorem wrap_data (x : String) :
    ("`" ++ x ++ "`").data = backquote :: (x.data ++ [backquote]) := by
  rw [data_append, data_append]
  have h : ("`" : String).data = [backquote] := by decide
  rw [h]
  simp

/-- Claim C9 (amended): for every cell that carries a formula marker and
no dropdown-options marker, the annotated output is the cell wrapped in
the inline-code delimiter: it starts and ends with a backquote and
contains the original display value (indeed the whole original cell
string) as a substring.  When a dropdown marker is also present the
output still starts with a backquote and contains the display value, but
ends with `</select>` (see the counterexample). -/
theorem c9_amended (d f : String) (hf : f ≠ "")
    (hop : occursIn "[options:".data (cell_value d f []).data = false) :
    mark_cell (cell_value d f []) = some ("`" ++ cell_value d f [] ++ "`") ∧
    ("`" ++ cell_value d f [] ++ "`").data.head? = some backquote ∧
    ("`" ++ cell_value d f [] ++ "`").data.getLast? = some backquote ∧
    occursIn d.data ("`" ++ cell_value d f [] ++ "`").data = true := by
  have hcv := cell_value_formula d f hf
  have hdata : (cell_value d f []).data =
      (d.data ++ [' ']) ++ "[formula:".data ++ ([' '] ++ f.data ++ "]".data) := by
    rw [hcv, data_append, data_append, data_append]
    have hsep : (" [formula: " : String).data = [' '] ++ "[formula:".data ++ [' '] := by decide
    rw [hsep]
    simp
  have hform : occursIn "[formula:".data (cell_value d f []).data = true :=
    (occursIn_iff _ _).mpr ⟨_, _, hdata⟩
  have hwrap := wrap_data (cell_value d f [])
  have hop1 : occursIn "[options:".data ("`" ++ cell_value d f [] ++ "`").data = false := by
    by_contra hc
    rw [Bool.not_eq_false, hwrap] at hc
    have h1 := occursIn_of_cons _ _ backquote (by decide) (by decide) hc
    have h2 := occursIn_of_concat _ backquote (by decide) (by decide) _ h1
    rw [h2] at hop
    exact Bool.noConfusion hop
  have hbool : pyUpper ("`" ++ cell_value d f [] ++ "`") ∉ boolLexemes := by
    intro hmem
    have hd : (pyUpper ("`" ++ cell_value d f [] ++ "`")).data.head? = some backquote := by
      show ((("`" ++ cell_value d f [] ++ "`").data).map Char.toUpper).head? = some backquote
      rw [hwrap]
      have : Char.toUpper backquote = backquote := by decide
      simp [this]
    simp only [boolLexemes, List.mem_cons, List.not_mem_nil, or_false] at hmem
    rcases hmem with h | h | h | h <;> rw [h] at hd <;> exact absurd hd (by decide)
  have hmark : mark_cell (cell_value d f []) = some ("`" ++ cell_value d f [] ++ "`") := by
    simp only [mark_cell, hform, if_true, hop1, Bool.false_eq_true, if_false,
      boolStep, if_neg hbool]
  refine ⟨hmark, ?_, ?_, ?_⟩
  · rw [hwrap]; rfl
  · rw [hwrap]
    have : backquote :: ((cell_value d f []).data ++ [backquote]) =
        (backquote :: (cell_value d f []).data) ++ [backquote] := by simp
    rw [this]
    exact List.getLast?_concat _
  · rw [hwrap, hdata]
    refine (occursIn_iff _ _).mpr ⟨[backquote], ?_, ?_⟩
    · exact ([' '] ++ "[formula:".data ++ ([' '] ++ f.data ++ "]".data)) ++ [backquote]
    · simp

/-- Witness for `c9_amended` at the concrete cell `v [formula: =f]`. -/
theorem c9_amended_witness :
    mark_cell (cell_value "v" "=f" []) = some ("`" ++ cell_value "v" "=f" [] ++ "`") ∧
    ("`" ++ cell_value "v" "=f" [] ++ "`").data.head? = some backquote ∧
    ("`" ++ cell_value "v" "=f" [] ++ "`").data.getLast? = some backquote ∧
    occursIn ("v" : String).data ("`" ++ cell_value "v" "=f" [] ++ "`").data = true :=
  c9_amended "v" "=f" (by decide) (by decide)

/-! ### Claim C10 -/

/-- Claim C10, counterexample: on the grid `[["[options:x"]]` the function
does not return a grid at all.  The guard checks for the substring
`"[options:"` but the split separator is `" [options: "`, so `parts` has a
single element and `parts[1]` raises `IndexError` (modelled by `none`). -/
theorem c10_cex : mark_identifiers [["[options:x"]] = none := by decide

theorem mark_row_total (row : List String) (h : ∀ c ∈ row, (mark_cell c).isSome) :
    ∃ r2, mark_row row = some r2 ∧
      List.Forall₂ (fun c oc => mark_cell c = some oc) row r2 := by
  induction row with
  | nil => exact ⟨[], rfl, List.Forall₂.nil⟩
  | cons c cs ih =>
    obtain ⟨y, hy⟩ := Option.isSome_iff_exists.mp (h c (List.mem_cons_self c cs))
    obtain ⟨ys, hys, hf2⟩ := ih fun d hd => h d (List.mem_cons_of_mem c hd)
    refine ⟨y :: ys, ?_, List.Forall₂.cons hy hf2⟩
    simp [mark_row, hy, hys]

/-- Claim C10 (amended): whenever no cell of the grid triggers the
guard/separator mismatch (i.e. `mark_cell` succeeds on every cell),
`mark_identifiers` returns a grid of exactly the same shape: same number
of rows, same number of cells in each row, rows and columns in the same
order, and each output cell a function of the corresponding input cell
only (`List.Forall₂` captures all of this). -/
theorem c10_amended (grid : List (List String))
    (h : ∀ row ∈ grid, ∀ c ∈ row, (mark_cell c).isSome) :
    ∃ out, mark_identifiers grid = some out ∧
      List.Forall₂ (List.Forall₂ fun c oc => mark_cell c = some oc) grid out := by
  induction grid with
  | nil => exact ⟨[], rfl, List.Forall₂.nil⟩
  | cons r rs ih =>
    obtain ⟨r2, hr2, hfr⟩ := mark_row_total r (h r (List.mem_cons_self r rs))
    obtain ⟨out, hout, hfo⟩ := ih fun row hrow => h row (List.mem_cons_of_mem r hrow)
    refine ⟨r2 :: out, ?_, List.Forall₂.cons hfr hfo⟩
    simp [mark_identifiers, hr2, hout]

/-- Witness for `c10_amended` at the concrete grid `[["TRUE", "x"]]`. -/
theorem c10_amended_witness :
    ∃ out, mark_identifiers [["TRUE", "x"]] = some out ∧
      List.Forall₂ (List.Forall₂ fun c oc => mark_cell c = some oc) [["TRUE", "x"]] out :=
  c10_amended [["TRUE", "x"]] (by decide)

/-! ### Claim C7 -/

/-- Claim C7: when the remote fetch raises (modelled by the `.error ()`
oracle) `get_sheet_data` returns the `None` sentinel instead of
propagating, and in both the error case and the empty-grid case the
orchestrator prints the "No data was retrieved" message, writes no output
file, and returns normally (no top-level error). -/
theorem c7_no_data (g n : Except Unit String) :
    main_pipeline (.error ()) g n =
      { printed_no_data := true, file_write := none, top_error := false } ∧
    main_pipeline (.ok []) g n =
      { printed_no_data := true, file_write := none, top_error := false } ∧
    get_sheet_data (.error ()) = none :=
  ⟨rfl, rfl, rfl⟩

/-! ### Claim C2 -/

/-- Claim C2, counterexample: an empty reply from the model is NOT
treated as a failure.  `format_with_gemini` returns it as a success and
`main` silently writes an empty output file: no fall-back to any
deterministic renderer (none exists in the script) and no
formatting-failure error is raised. -/
theorem c2_cex :
    format_with_gemini (.ok "") = some "" ∧
    main_pipeline (.ok [some [("a", "", [])]]) (.ok "") (.ok "name") =
      { printed_no_data := false, file_write := some ("name.md", ""), top_error := false } := by
  constructor
  · rfl
  · decide

theorem main_pipeline_gemini_error
    (fetch : Except Unit (List (Option (List (String × String × List String)))))
    (naming : Except Unit String) :
    main_pipeline fetch (.error ()) naming =
      { printed_no_data := true, file_write := none, top_error := false } ∨
    main_pipeline fetch (.error ()) naming =
      { printed_no_data := false, file_write := none, top_error := true } ∨
    main_pipeline fetch (.error ()) naming =
      { printed_no_data := false, file_write := some (outputFileName naming, ""),
        top_error := true } := by
  cases hgs : get_sheet_data fetch with
  | none => left; simp [main_pipeline, hgs]
  | some rows =>
    cases rows with
    | nil => left; simp [main_pipeline, hgs]
    | cons r rs =>
      cases hmk : mark_identifiers (r :: rs) with
      | none => right; left; simp [main_pipeline, hgs, hmk]
      | some m => right; right; simp [main_pipeline, hgs, hmk, format_with_gemini]

/-- Claim C2 (amended): when the AI formatting call raises,
`format_with_gemini` returns `None` and the subsequent `f.write(None)`
raises `TypeError`, which the top-level handler catches: every run in
which a file is written on this path leaves it empty (no partial table
content) and records the error — the failure is logged, not fatal.  There
is, however, no deterministic-renderer fallback, and an empty response
string is treated as success and written verbatim (see the
counterexample). -/
theorem c2_amended
    (fetch : Except Unit (List (Option (List (String × String × List String)))))
    (naming : Except Unit String) (f c : String)
    (h : (main_pipeline fetch (.error ()) naming).file_write = some (f, c)) :
    c = "" ∧ (main_pipeline fetch (.error ()) naming).top_error = true := by
  rcases main_pipeline_gemini_error fetch naming with he | he | he <;> rw [he] at h ⊢
  · exact Option.noConfusion h
  · exact Option.noConfusion h
  · simp only [Option.some.injEq, Prod.mk.injEq] at h
    exact ⟨h.2.symm, rfl⟩

/-- Witness for `c2_amended` at a concrete run in which the fetch
succeeds and the AI formatting call raises. -/
theorem c2_amended_witness :
    ("" : String) = "" ∧
    (main_pipeline (.ok [some [("a", "", [])]]) (.error ()) (.ok "x")).top_error = true :=
  c2_amended (.ok [some [("a", "", [])]]) (.ok "x") "x.md" "" (by decide)

/-! ### Claim C8 -/

/-- Claim C8, counterexample: the sanitizer keeps every Python-alphanumeric
character, not only `[a-z0-9]`.  For the model reply `Résumé` the written
file name is `résumé.md`, which contains `é` — a character outside the
set `[a-z0-9_.]` claimed by the specification. -/
theorem c8_cex :
    outputFileName (.ok "Résumé") = "résumé.md" ∧
    'é' ∈ (outputFileName (.ok "Résumé")).data ∧
    'é' ∉ "abcdefghijklmnopqrstuvwxyz0123456789_.".data := by decide

theorem generate_file_name_good (resp : Except Unit String) :
    ∀ c ∈ (generate_file_name_with_ai resp).data, goodChar c = true := by
  cases resp with
  | error u =>
    have h : ∀ c ∈ ("output.md" : String).data, goodChar c = true := by decide
    exact h
  | ok t =>
    intro c hc
    simp only [generate_file_name_with_ai] at hc
    exact (List.mem_filter.mp hc).2

theorem generate_file_name_md (resp : Except Unit String) :
    pyEndsWith ".md".data (generate_file_name_with_ai resp).data = true := by
  cases resp with
  | error u => cases u; decide
  | ok t =>
    simp only [generate_file_name_with_ai]
    split
    · next hend =>
      obtain ⟨pre, hpre⟩ := (pyEndsWith_iff _ _).mp hend
      rw [pyEndsWith_iff]
      refine ⟨pre.filter goodChar, ?_⟩
      rw [hpre, List.filter_append]
      congr 1
    · rw [pyEndsWith_iff]
      refine ⟨(pyLower (pyStrip t)).data.filter goodChar, ?_⟩
      rw [data_append, List.filter_append]
      congr 1

theorem goodChar_not_space (c : Char) (h : goodChar c = true) : pyIsSpaceChar c = false := by
  by_contra hc
  rw [Bool.not_eq_false] at hc
  simp only [pyIsSpaceChar, Bool.or_eq_true, beq_iff_eq] at hc
  rcases hc with ((((rfl | rfl) | rfl) | rfl) | rfl) | rfl <;> exact absurd h (by decide)

theorem goodChar_ne_space (c : Char) (h : goodChar c = true) : c ≠ ' ' := by
  intro he
  rw [he] at h
  exact absurd h (by decide)

/-- The `strip().replace(" ", "_")` post-processing in `main` leaves the
generated file name unchanged: the sanitizer admits no whitespace. -/
theorem outputFileName_eq (resp : Except Unit String) :
    outputFileName resp = generate_file_name_with_ai resp := by
  have hg := generate_file_name_good resp
  have h1 : pyStrip (generate_file_name_with_ai resp) = generate_file_name_with_ai resp := by
    show (⟨stripChars (generate_file_name_with_ai resp).data⟩ : String) = _
    rw [stripChars_eq_self _ fun c hc => goodChar_not_space c (hg c hc)]
  have h2 : replaceSpace (generate_file_name_with_ai resp) = generate_file_name_with_ai resp := by
    show (⟨(generate_file_name_with_ai resp).data.map _⟩ : String) = _
    rw [map_eq_self_of _ _ fun c hc => if_neg (goodChar_ne_space c (hg c hc))]
  rw [outputFileName, h1, h2]

/-- Claim C8 (amended): the output file name always ends in `.md`, on any
naming failure it is exactly the fallback `output.md`, and every one of
its characters is Python-alphanumeric, `_` or `.`.  For an all-ASCII
model reply this is exactly the claimed `[a-z0-9_.]`; but non-ASCII
alphanumerics pass the sanitizer (see the counterexample), so the
`[a-z0-9_.]` restriction does not hold for every naming outcome. -/
theorem c8_amended :
    (∀ resp : Except Unit String,
       pyEndsWith ".md".data (outputFileName resp).data = true ∧
       ∀ c ∈ (outputFileName resp).data, pyIsAlnum c = true ∨ c = '_' ∨ c = '.') ∧
    outputFileName (.error ()) = "output.md" ∧
    (∀ t : String, (∀ c ∈ t.data, c.toNat ≤ 127) →
       ∀ c ∈ (outputFileName (.ok t)).data,
         (97 ≤ c.toNat ∧ c.toNat ≤ 122) ∨ (48 ≤ c.toNat ∧ c.toNat ≤ 57) ∨
           c = '_' ∨ c = '.') := by
  refine ⟨fun resp => ⟨?_, ?_⟩, ?_, ?_⟩
  · rw [outputFileName_eq]
    exact generate_file_name_md resp
  · rw [outputFileName_eq]
    intro c hc
    have hgc := generate_file_name_good resp c hc
    simp only [goodChar, Bool.or_eq_true, beq_iff_eq] at hgc
    exact or_assoc.mp hgc
  · rw [outputFileName_eq]
    rfl
  · intro t ht c hc
    rw [outputFileName_eq] at hc
    have hgc := generate_file_name_good (.ok t) c hc
    simp only [generate_file_name_with_ai] at hc
    obtain ⟨hmem, _⟩ := List.mem_filter.mp hc
    have hsplit : c ∈ (pyLower (pyStrip t)).data ∨ c ∈ (".md" : String).data := by
      revert hmem
      split
      · intro hmem; exact Or.inl hmem
      · intro hmem
        rw [data_append] at hmem
        exact List.mem_append.mp hmem
    rcases hsplit with hmem' | hmem'
    · have hmap : c ∈ (stripChars t.data).map pyLowerChar := hmem'
      obtain ⟨a, ha, hpc⟩ := List.mem_map.mp hmap
      have hat : a ∈ t.data := mem_of_mem_stripChars t.data a ha
      have hascii : a.toNat ≤ 127 := ht a hat
      by_cases h1 : 65 ≤ a.toNat ∧ a.toNat ≤ 90
      · have hc' : c = Char.ofNat (a.toNat + 32) := by
          rw [← hpc]; simp [pyLowerChar, h1]
        have hv : (Char.ofNat (a.toNat + 32)).toNat = a.toNat + 32 :=
          toNat_ofNat_small _ (by omega)
        left
        rw [hc', hv]
        omega
      · have h2 : ¬ (192 ≤ a.toNat ∧ a.toNat ≤ 222 ∧ a.toNat ≠ 215) := by omega
        have hc' : c = a := by rw [← hpc]; simp [pyLowerChar, h1, h2]
        subst hc'
        simp only [goodChar, pyIsAlnum, Bool.or_eq_true, beq_iff_eq,
          decide_eq_true_eq] at hgc
        rcases hgc with ((((hr | hr) | hr) | hr) | rfl) | rfl
        · right; left; exact hr
        · exact absurd hr (by omega)
        · left; exact hr
        · exact absurd hr.1 (by omega)
        · right; right; left; rfl
        · right; right; right; rfl
    · have : c = '.' ∨ c = 'm' ∨ c = 'd' := by
        have hlist : (".md" : String).data = ['.', 'm', 'd'] := by decide
        rw [hlist] at hmem'
        simpa using hmem'
      rcases this with rfl | rfl | rfl
      · right; right; right; rfl
      · left; decide
      · left; decide

/-- Witness for `c8_amended` (ASCII clause) at the concrete reply
`My File`, whose sanitized output is `myfile.md`. -/
theorem c8_amended_witness :
    pyEndsWith ".md".data (outputFileName (.ok "My File")).data = true ∧
    ((97 ≤ 'm'.toNat ∧ 'm'.toNat ≤ 122) ∨ (48 ≤ 'm'.toNat ∧ 'm'.toNat ≤ 57) ∨
      'm' = '_' ∨ 'm' = '.') :=
  ⟨(c8_amended.1 (.ok "My File")).1, c8_amended.2.2 "My File" (by decide) 'm' (by decide)⟩

/-! ### Claims C3–C6 (the `ProgressBar` state machine) -/

namespace ProgressBar

theorem setPercent_output (q : ℚ) (s : PBState) :
    (setPercent q s).output = s.output ++ [OutEvent.bar (clamp q)] := by
  simp only [setPercent]
  split <;> rfl

/-- Claim C6: a call `update(step, percent)` with a new step while the
current step is non-empty and below 100 first force-completes the
previous step — emitting a bar redraw at exactly 100 — then prints the
new step header, resets the percentage to 0, and only then applies the
optional `percent` argument. -/
theorem c6_step_change (s : PBState) (step : String) (p : Option ℚ)
    (h1 : step ≠ s.current_step) (h2 : s.current_step ≠ "") (h3 : s.progress < 100) :
    update step p s =
      (match p with
       | none => changeStep step s
       | some q => setPercent q (changeStep step s)) ∧
    (changeStep step s).output =
      s.output ++ [OutEvent.bar 100, OutEvent.header step] ∧
    (changeStep step s).progress = 0 ∧
    (changeStep step s).current_step = step := by
  refine ⟨?_, ?_, rfl, rfl⟩
  · cases p <;> simp [update, if_neg h1]
  · simp only [changeStep, if_pos (And.intro h2 h3)]
    rw [setPercent_output, clamp_100]
    simp

/-- Witness for `c6_step_change` at a concrete reporter state. -/
theorem c6_step_change_witness :
    update "B" (some 40)
        { current_step := "A", progress := 30, stop_fake := false, is_running_fake := false,
          threads := [], step_printed := true, output := [] } =
      setPercent 40 (changeStep "B"
        { current_step := "A", progress := 30, stop_fake := false, is_running_fake := false,
          threads := [], step_printed := true, output := [] }) ∧
    (changeStep "B"
        { current_step := "A", progress := 30, stop_fake := false, is_running_fake := false,
          threads := [], step_printed := true, output := [] }).output =
      [OutEvent.bar 100, OutEvent.header "B"] ∧
    (changeStep "B"
        { current_step := "A", progress := 30, stop_fake := false, is_running_fake := false,
          threads := [], step_printed := true, output := [] }).progress = 0 := by
  have h := c6_step_change
    { current_step := "A", progress := 30, stop_fake := false, is_running_fake := false,
      threads := [], step_printed := true, output := [] }
    "B" (some 40) (by decide) (by decide) (by norm_num)
  exact ⟨h.1, by simpa using h.2.1, h.2.2.1⟩

/-- Claim C5: at most one background simulation thread is ever live.  A
run of any schedule keeps the live-thread count at or below one, and a
`simulate_progress` call that finds a prior live thread first sets the
stop flag and joins that thread, and only then clears the flag, reports
`start_from`, and starts the new worker — exactly in that order. -/
theorem c5_single_thread :
    (∀ ops : List PBOp, (run ops).threads.length ≤ 1) ∧
    (∀ (s : PBState) (st : String) (sf b : ℚ) (ds : List ℚ), s.threads ≠ [] →
      simulate_progress st sf b ds s =
        (let joined := runWorker ds { s with stop_fake := true }
         let restarted := { joined with stop_fake := false, is_running_fake := true }
         let reported := update st (some sf) restarted
         { reported with
            threads := reported.threads ++ [{ step := st, current := sf, bound := b }] })) := by
  refine ⟨run_threads_le, ?_⟩
  intro s st sf b ds h
  simp only [simulate_progress, if_neg h]

/-- Witness for `c5_single_thread` at a concrete schedule and a concrete
state with a live thread. -/
theorem c5_single_thread_witness :
    (run [PBOp.simulate "A" 0 80 []]).threads.length ≤ 1 ∧
    simulate_progress "B" 0 90 []
        { current_step := "A", progress := 5, stop_fake := false, is_running_fake := true,
          threads := [{ step := "A", current := 5, bound := 80 }], step_printed := true,
          output := [] } =
      (let joined := runWorker []
          { current_step := "A", progress := 5, stop_fake := true, is_running_fake := true,
            threads := [{ step := "A", current := 5, bound := 80 }], step_printed := true,
            output := [] }
       let restarted := { joined with stop_fake := false, is_running_fake := true }
       let reported := update "B" (some 0) restarted
       { reported with
          threads := reported.threads ++ [{ step := "B", current := 0, bound := 90 }] }) :=
  ⟨c5_single_thread.1 [PBOp.simulate "A" 0 80 []],
   c5_single_thread.2
     { current_step := "A", progress := 5, stop_fake := false, is_running_fake := true,
       threads := [{ step := "A", current := 5, bound := 80 }], step_printed := true,
       output := [] } "B" 0 90 [] (by decide)⟩

/-- Claim C4: the simulation never reaches 100 on its own.  Every
`simulate_progress` call site in the script passes an `until` bound of at
most 90; with increments of at most 2 (the worker adds
`random.uniform(0.5, 2)`) every value the worker routes to `update` is
strictly below 100; and routing a value below 100 through the percent
branch of `update` leaves the stored progress strictly below 100, so only
a deterministic foreground `update(step, 100)` can complete a step. -/
theorem c4_sim_below_100 :
    (∀ p ∈ simulateCallSites, p.2 ≤ 90) ∧
    (∀ sf b : ℚ, (sf, b) ∈ simulateCallSites →
      ∀ ds : List ℚ, (∀ δ ∈ ds, δ ≤ 2) →
        ∀ v ∈ workerValues sf b ds, v < 100) ∧
    (∀ (s : PBState) (v : ℚ), v < 100 → (setPercent v s).progress < 100) := by
  refine ⟨by decide, ?_, ?_⟩
  · intro sf b hmem ds hds v hv
    have hb : b ≤ 90 := by
      simp only [simulateCallSites, List.mem_cons, List.not_mem_nil, or_false,
        Prod.mk.injEq] at hmem
      rcases hmem with ⟨_, rfl⟩ | ⟨_, rfl⟩ | ⟨_, rfl⟩ | ⟨_, rfl⟩ <;> norm_num
    exact workerValues_lt b hb ds hds sf v hv
  · intro s v hv
    have hpr : (setPercent v s).progress = clamp v := by
      simp only [setPercent]
      split <;> rfl
    rw [hpr, clamp]
    exact lt_of_le_of_lt (min_le_right _ _) (max_lt (by norm_num) hv)

/-- Witness for `c4_sim_below_100` at the call site `(10, 90)` of
`format_with_gemini` with one maximal increment. -/
theorem c4_sim_below_100_witness :
    ((12 : ℚ) < 100) ∧ (setPercent 50 initState).progress < 100 :=
  ⟨c4_sim_below_100.2.1 10 90 (by decide) [2] (by decide) 12 (by norm_num [workerValues]),
   c4_sim_below_100.2.2 initState 50 (by norm_num)⟩

/-- Claim C3, counterexample: the schedule `update("A", 50)` followed by
`wait_for_simulated_progress()` ends in `wait` but leaves the percent of
the last step touched at 50, not 100: `wait` only joins the worker, it
never completes a step (no call in the sequence drove the percent to
100). -/
theorem c3_cex :
    (run [PBOp.update "A" (some 50), PBOp.wait []]).threads = [] ∧
    (run [PBOp.update "A" (some 50), PBOp.wait []]).progress = 50 ∧
    (run [PBOp.update "A" (some 50), PBOp.wait []]).current_step = "A" ∧
    (run [PBOp.update "A" (some 50), PBOp.wait []]).progress ≠ 100 := by
  have hrun : run [PBOp.update "A" (some 50), PBOp.wait []] =
      wait_for_fake_progress [] (update "A" (some 50) initState) := rfl
  have hupd : update "A" (some 50) initState =
      { current_step := "A", progress := 50, stop_fake := false, is_running_fake := false,
        threads := [], step_printed := true, output := [OutEvent.header "A", OutEvent.bar 50] } := by
    simp only [update, changeStep, setPercent, clamp, initState]
    norm_num
    rw [if_neg (by decide : ¬("A" : String) = "")]
    simp
  rw [hrun, hupd]
  norm_num [wait_for_fake_progress]

/-- Joining the worker always removes exactly the joined thread: whether
the loop exits through the stop flag, through its bound, or by exhausting
the scheduled increments, the advancing iterations only ever replace the
head worker record, and every terminal case drops it. -/
theorem runWorker_threads_tail (ds : List ℚ) (s : PBState) :
    (runWorker ds s).threads = s.threads.tail := by
  induction ds generalizing s with
  | nil =>
    cases hth : s.threads with
    | nil => simp [runWorker, hth]
    | cons w rest => simp [runWorker, hth]
  | cons δ ds ih =>
    cases hth : s.threads with
    | nil => simp [runWorker, hth]
    | cons w rest =>
      simp only [runWorker, hth]
      split
      · simp
      · next hcond =>
        rw [ih (tickWith δ s)]
        have htick : (tickWith δ s).threads = { w with current := w.current + δ } :: rest := by
          simp only [tickWith, hth]
          rw [if_neg hcond]
        rw [htick]
        rfl

/-- After `wait_for_fake_progress` no simulation thread is alive (given
the machine-wide invariant that at most one was alive before). -/
theorem wait_threads_nil (ds : List ℚ) (s : PBState) (h : s.threads.length ≤ 1) :
    (wait_for_fake_progress ds s).threads = [] := by
  simp only [wait_for_fake_progress]
  split
  · next hnil => exact hnil
  · rw [runWorker_threads_tail]
    exact tail_eq_nil_of_length_le_one s.threads h

/-- Claim C3 (amended): after ANY call sequence ending in
`wait_for_simulated_progress` no background simulation thread is alive.
The wait itself never drives the percent to 100 (see the counterexample:
it only joins the worker, whose simulation stays strictly below its
bound); the percent of the last step touched equals 100 whenever a
deterministic `update(step, 100)` immediately precedes the wait, which is
the pattern used at every call site of the script. -/
theorem c3_amended (ops : List PBOp) (ds : List ℚ) :
    (run (ops ++ [PBOp.wait ds])).threads = [] ∧
    (∀ st : String,
      (run (ops ++ [PBOp.update st (some 100), PBOp.wait ds])).threads = [] ∧
      (run (ops ++ [PBOp.update st (some 100), PBOp.wait ds])).progress = 100 ∧
      (run (ops ++ [PBOp.update st (some 100), PBOp.wait ds])).current_step = st) := by
  constructor
  · have hrun : run (ops ++ [PBOp.wait ds]) = wait_for_fake_progress ds (run ops) := by
      simp [run, List.foldl_append, runOp]
    rw [hrun]
    exact wait_threads_nil ds (run ops) (run_threads_le ops)
  intro st
  have hrun : run (ops ++ [PBOp.update st (some 100), PBOp.wait ds]) =
      wait_for_fake_progress ds (update st (some 100) (run ops)) := by
    simp [run, List.foldl_append, runOp]
  obtain ⟨hp, hstop, hcs⟩ := update_some100 st (run ops)
  have hth : (update st (some 100) (run ops)).threads = (run ops).threads :=
    update_threads st (some 100) (run ops)
  have hlen : (run ops).threads.length ≤ 1 := run_threads_le ops
  rw [hrun]
  by_cases hnil : (update st (some 100) (run ops)).threads = []
  · rw [wait_for_fake_progress, if_pos hnil]
    exact ⟨hnil, hp, hcs⟩
  · rw [wait_for_fake_progress, if_neg hnil]
    obtain ⟨ht, hpr, hcs2, _⟩ := runWorker_stop ds (update st (some 100) (run ops)) hstop
    refine ⟨?_, ?_, ?_⟩
    · rw [ht, hth]
      exact tail_eq_nil_of_length_le_one (run ops).threads hlen
    · rw [hpr]; exact hp
    · rw [hcs2]; exact hcs

end ProgressBar
